import Mathlib

set_option maxRecDepth 400000

/-!
Verification of the `simple_html_docgen` document storage engine and export
pipeline.  Go strings are modelled as Lean `String`s (lists of characters);
`strings.ToLower` is modelled per character with `Char.toLower` (ASCII case
mapping); timestamps are `Nat`; the filesystem is modelled explicitly as the
association list of entries under the storage root directory.
-/

namespace DocGen

/-! ## String primitives (Go `strings` / `encoding/hex` / `path/filepath`) -/

/-- Go `strings.ToLower`, per character (ASCII case mapping). -/
def goToLower (s : String) : String := ⟨s.data.map Char.toLower⟩

/-- Go `strings.Index` on character lists: index of the first occurrence of
`needle` as a contiguous substring of `hay`, `none` when absent (Go returns -1). -/
def subIdx : List Char → List Char → Option Nat
  | [], needle => if needle = [] then some 0 else none
  | c :: rest, needle =>
      if needle.isPrefixOf (c :: rest) then some 0
      else (subIdx rest needle).map (· + 1)

/-- One lowercase hexadecimal digit, as produced by `encoding/hex`. -/
def hexDigit (n : Nat) : Char :=
  if n % 16 < 10 then Char.ofNat (48 + n % 16) else Char.ofNat (87 + n % 16)

/-- Go `hex.EncodeToString`: two lowercase hex digits per byte. -/
def hexEncodeToString (bytes : List Nat) : String :=
  ⟨bytes.flatMap (fun b => [hexDigit (b / 16), hexDigit (b % 16)])⟩

/-- Go `filepath.Base`: strip trailing slashes and keep the part after the
last slash; `""` gives `"."` and an all-slash path gives `"/"`. -/
def goBase (p : String) : String :=
  if p.data = [] then "." else
    let stripped := p.data.reverse.dropWhile (· = '/')
    if stripped = [] then "/" else ⟨(stripped.takeWhile (· ≠ '/')).reverse⟩

/-! ## `InjectDefaultPrintStyles` (pkg/export) -/

/-- The fixed block of print-media CSS injected before PDF rendering
(the Go raw-string literal `defaultPrintStyles`, braces escaped). -/
def defaultPrintStyles : String :=
  "\n<style media=\"print\">\n/* Auto-injected print optimization fallback */\n/* These rules apply only if document doesn\x27t define its own @media print styles */\n@media print \x7b\n  /* Remove decorative body backgrounds */\n  body \x7b\n    background: white !important;\n    background-color: white !important;\n    background-image: none !important;\n  \x7d\n\n  /* Remove decorative shadows that waste ink */\n  * \x7b\n    box-shadow: none !important;\n    text-shadow: none !important;\n  \x7d\n\n  /* Preserve page breaks and layout */\n  @page \x7b\n    margin: 0.5in;\n  \x7d\n\x7d\n</style>"

/-- The needle `"</head>"`. -/
def headClose : List Char := "</head>".data

/-- The needle `"<body"`. -/
def bodyOpen : List Char := "<body".data

/-- Core of `InjectDefaultPrintStyles` on character lists: insert the style
block before the first case-insensitive `"</head>"`; otherwise after the
closing `>` of the first case-insensitive `"<body"`; otherwise prepend. -/
def injectCore (htmlContent : List Char) : List Char :=
  let d := defaultPrintStyles.data
  match subIdx (htmlContent.map Char.toLower) headClose with
  | some idx => htmlContent.take idx ++ d ++ '\n' :: htmlContent.drop idx
  | none =>
    match subIdx (htmlContent.map Char.toLower) bodyOpen with
    | some idx =>
      match subIdx (htmlContent.drop idx) ['>'] with
      | some endIdx =>
          let insertPos := idx + endIdx + 1
          htmlContent.take insertPos ++ '\n' :: d ++ '\n' :: htmlContent.drop insertPos
      | none => d ++ '\n' :: htmlContent
    | none => d ++ '\n' :: htmlContent

/-- Go `InjectDefaultPrintStyles` (pkg/export): adds the default print styles
to HTML content. -/
def InjectDefaultPrintStyles (htmlContent : String) : String :=
  ⟨injectCore htmlContent.data⟩

/-! Correctness of the substring-index primitive. -/

theorem subIdx_found {hay needle : List Char} {i : Nat}
    (h : subIdx hay needle = some i) :
    needle <+: hay.drop i ∧ ∀ j, j < i → ¬ needle <+: hay.drop j := by
  induction hay generalizing i with
  | nil =>
    by_cases hn : needle = ([] : List Char)
    · simp [subIdx, hn] at h
      subst h
      simp [hn]
    · simp [subIdx, hn] at h
  | cons c rest ih =>
    by_cases hp : needle <+: (c :: rest)
    · simp [subIdx, hp] at h
      subst h
      exact ⟨hp, fun j hj => absurd hj (Nat.not_lt_zero j)⟩
    · simp [subIdx, hp] at h
      obtain ⟨i', hi', rfl⟩ := h
      obtain ⟨h1, h2⟩ := ih hi'
      refine ⟨h1, ?_⟩
      intro j hj
      cases j with
      | zero => simpa using hp
      | succ j' =>
        simpa using h2 j' (Nat.lt_of_succ_lt_succ hj)

theorem subIdx_none {hay needle : List Char}
    (h : subIdx hay needle = none) :
    ∀ j, ¬ needle <+: hay.drop j := by
  induction hay with
  | nil =>
    intro j
    by_cases hn : needle = ([] : List Char)
    · simp [subIdx, hn] at h
    · cases needle with
      | nil => simp at hn
      | cons a as => simp
  | cons c rest ih =>
    by_cases hp : needle <+: (c :: rest)
    · simp [subIdx, hp] at h
    · simp [subIdx, hp] at h
      intro j
      cases j with
      | zero => simpa using hp
      | succ j' => simpa using ih h j'

/-! ## Identifier generator (pkg/document/idgen.go) -/

/-- Maximum length of the slugified name portion. -/
def MaxSlugLength : Nat := 30

/-- Length of the random suffix. -/
def SuffixLength : Nat := 4

/-- Collapse runs of consecutive hyphens to a single hyphen. -/
def collapseHyphens : List Char → List Char
  | [] => []
  | c :: rest =>
      if c = '-' then
        match collapseHyphens rest with
        | '-' :: tail => '-' :: tail
        | tail => '-' :: tail
      else c :: collapseHyphens rest

/-- Modelled from the spec: the slug normalization performed by the external
`gosimple/slug` dependency, which is not part of this repository ("lowercase,
ASCII-transliterated, words joined by hyphens, non-alphanumeric characters
stripped"): lowercase every character, replace non-alphanumeric characters by
hyphens, collapse hyphen runs and strip leading/trailing hyphens. -/
def slugMake (name : String) : String :=
  let mapped := name.data.map fun c =>
    if (Char.toLower c).isAlphanum then Char.toLower c else '-'
  ⟨(((collapseHyphens mapped).dropWhile (· = '-')).reverse.dropWhile (· = '-')).reverse⟩

/-- Go `generateRandomSuffix`: hex-encode the `SuffixLength/2+1 = 3` drawn
random bytes and keep the first `SuffixLength` characters; when `rand.Read`
fails (`draw = none`) Go returns `fmt.Sprintf("%04x", len(bytes))`, i.e.
`"0003"`. -/
def generateRandomSuffix (draw : Option (List Nat)) : String :=
  match draw with
  | none => "0003"
  | some bytes => ⟨(hexEncodeToString bytes).data.take SuffixLength⟩

/-- The slugified name after Go's trim-to-`MaxSlugLength` step and the
empty-slug fallback to `"document"` (in that order, as in the source). -/
def slugTrimmed (name : String) : String :=
  let slugified := slugMake name
  let slugified :=
    if slugified.data.length > MaxSlugLength then (⟨slugified.data.take MaxSlugLength⟩ : String)
    else slugified
  if slugified.data = [] then "document" else slugified

/-- The candidate loop `for i := 0; i < 100; i++` of `GenerateDocumentID`:
`attempt` is the index of the next random draw, `fuel` the remaining
iterations; `none` means all iterations collided. -/
def genLoop (slugified : String) (existsFunc : String → Bool)
    (draws : Nat → Option (List Nat)) : Nat → Nat → Option String
  | _, 0 => none
  | attempt, fuel + 1 =>
      let suffix := generateRandomSuffix (draws attempt)
      let id := slugified ++ "-" ++ suffix
      if existsFunc id = false then some id
      else genLoop slugified existsFunc draws (attempt + 1) fuel

/-- Go `GenerateDocumentID`: slugify and trim the name, try 100 random
suffixes against `existsFunc`, and fall back to a double-length suffix
(returned unconditionally) when all collide. `draws` supplies the successive
results of the `crypto/rand` reads. -/
def GenerateDocumentID (name : String) (existsFunc : String → Bool)
    (draws : Nat → Option (List Nat)) : String :=
  let slugified := slugTrimmed name
  match genLoop slugified existsFunc draws 0 100 with
  | some id => id
  | none =>
      let longSuffix := generateRandomSuffix (draws 100) ++ generateRandomSuffix (draws 101)
      slugified ++ "-" ++ longSuffix

/-- Go `ValidateDocumentID`: non-empty, contains at least one hyphen, and no
longer than `MaxSlugLength + SuffixLength + 1` (= 35) characters. -/
def ValidateDocumentID (id : String) : Bool :=
  if id.data = [] then false
  else if !(id.data.contains '-') then false
  else if id.data.length > MaxSlugLength + SuffixLength + 1 then false
  else true

/-! ## Data model (pkg/document/types.go) -/

/-- Go `document.Metadata` (timestamps as abstract `Nat`s). -/
structure Metadata where
  name : String
  createdAt : Nat
  updatedAt : Nat
deriving DecidableEq

/-- Go `document.Document`. -/
structure Document where
  id : String
  name : String
  htmlContent : String
  createdAt : Nat
  updatedAt : Nat
deriving DecidableEq

/-- Go `document.DocumentInfo`: the listing summary. -/
structure DocumentInfo where
  id : String
  name : String
  createdAt : Nat
  updatedAt : Nat
  filePath : String
deriving DecidableEq

/-! ## Storage engine (pkg/storage) -/

/-- The on-disk state of a `metadata.json` sidecar: absent, present but
rejected by `json.Unmarshal`, or parsing to a `Metadata` value
(`WriteMetadata` followed by `ReadMetadata` round-trips through JSON). -/
inductive MetaFile
  | absent
  | corrupt
  | valid (m : Metadata)
deriving DecidableEq

/-- One document directory under the root: the `index.html` content when that
file is present, the metadata sidecar, whether `media/` exists, and the media
files (filename, content). -/
structure DirEntry where
  html : Option String
  meta : MetaFile
  hasMediaDir : Bool
  media : List (String × String)
deriving DecidableEq

/-- An immediate entry of the root directory: a plain file or a directory. -/
inductive RootEntry
  | file (content : String)
  | dir (d : DirEntry)
deriving DecidableEq

/-- The tree under the storage root directory, as an association list of
immediate entries (names are unique on real filesystems; the modelled
operations preserve uniqueness). -/
structure FS where
  entries : List (String × RootEntry)
deriving DecidableEq

/-- Look up an immediate entry of the root by name. -/
def findEntry : List (String × RootEntry) → String → Option RootEntry
  | [], _ => none
  | (k, v) :: rest, id => if k = id then some v else findEntry rest id

/-- Replace the entry named `id`, appending it when absent. -/
def setEntry : List (String × RootEntry) → String → RootEntry → List (String × RootEntry)
  | [], id, v => [(id, v)]
  | (k, w) :: rest, id, v =>
      if k = id then (id, v) :: rest else (k, w) :: setEntry rest id v

/-- Go `os.RemoveAll` of `rootDir/<id>`: drop the root entry named `id`. -/
def removeEntry : List (String × RootEntry) → String → List (String × RootEntry)
  | [], _ => []
  | (k, w) :: rest, id =>
      if k = id then removeEntry rest id else (k, w) :: removeEntry rest id

/-- Replace the media file named `k`, appending it when absent
(`os.Create` truncates an existing file). -/
def setMedia : List (String × String) → String → String → List (String × String)
  | [], k, v => [(k, v)]
  | (k', v') :: rest, k, v =>
      if k' = k then (k, v) :: rest else (k', v') :: setMedia rest k v

/-- The error kinds of the modelled operations (the spec's taxonomy;
Go wraps errors with `%w`, preserving the cause's kind). -/
inductive DocError
  | validation
  | notFound
  | storage
deriving DecidableEq

/-- Go `Storage.DocumentExists`: `os.Stat` of `rootDir/<id>/index.html`
succeeds — i.e. the entry is a directory whose `index.html` is present. -/
def Storage.DocumentExists (fs : FS) (documentID : String) : Bool :=
  match findEntry fs.entries documentID with
  | some (.dir d) => d.html.isSome
  | _ => false

/-- Go `Storage.CreateDocument`: `MkdirAll` on the document directory and its
`media/` subdirectory (failing over an existing plain file), then write
`index.html` and the metadata sidecar. -/
def Storage.CreateDocument (fs : FS) (doc : Document) : Except DocError FS :=
  match findEntry fs.entries doc.id with
  | some (.file _) => .error .storage
  | some (.dir d) =>
      .ok ⟨setEntry fs.entries doc.id (.dir { d with
        html := some doc.htmlContent,
        meta := .valid ⟨doc.name, doc.createdAt, doc.updatedAt⟩,
        hasMediaDir := true })⟩
  | none =>
      .ok ⟨setEntry fs.entries doc.id (.dir {
        html := some doc.htmlContent,
        meta := .valid ⟨doc.name, doc.createdAt, doc.updatedAt⟩,
        hasMediaDir := true,
        media := [] })⟩

/-- Go `Storage.UpdateDocument`: not-found unless `DocumentExists`; then
overwrite `index.html` and rewrite the metadata sidecar. -/
def Storage.UpdateDocument (fs : FS) (doc : Document) : Except DocError FS :=
  match findEntry fs.entries doc.id with
  | some (.dir d) =>
      if d.html.isSome then
        .ok ⟨setEntry fs.entries doc.id (.dir { d with
          html := some doc.htmlContent,
          meta := .valid ⟨doc.name, doc.createdAt, doc.updatedAt⟩ })⟩
      else .error .notFound
  | _ => .error .notFound

/-- Go `Storage.GetDocument`: not-found unless `DocumentExists`; then read
`index.html` and the metadata sidecar (a missing or unparsable sidecar is a
storage read error). -/
def Storage.GetDocument (fs : FS) (documentID : String) : Except DocError Document :=
  match findEntry fs.entries documentID with
  | some (.dir d) =>
      match d.html with
      | some htmlContent =>
          match d.meta with
          | .valid m => .ok ⟨documentID, m.name, htmlContent, m.createdAt, m.updatedAt⟩
          | _ => .error .storage
      | none => .error .notFound
  | _ => .error .notFound

/-- The per-entry step of Go `Storage.ListDocuments`: skip plain files, skip
directories without `index.html`, skip directories whose metadata does not
parse; otherwise build the summary with `FilePath =
filepath.Join(documentID, "index.html")`. -/
def listEntrySummary : String × RootEntry → Option DocumentInfo
  | (_, .file _) => none
  | (documentID, .dir d) =>
      match d.html, d.meta with
      | some _, .valid m =>
          some ⟨documentID, m.name, m.createdAt, m.updatedAt, documentID ++ "/index.html"⟩
      | _, _ => none

/-- Go `Storage.ListDocuments`: fold `listEntrySummary` over the root
entries. -/
def Storage.ListDocuments (fs : FS) : List DocumentInfo :=
  fs.entries.filterMap listEntrySummary

/-- Go `Storage.CopyMediaFile`. `extFiles` models the filesystem outside the
root (caller-supplied source files, path ↦ content). `filepath.Join("media",
filename)` is written `"media/" ++ filename` (path cleaning is the identity
on the clean basenames arising in practice). -/
def Storage.CopyMediaFile (fs : FS) (extFiles : List (String × String))
    (documentID sourcePath : String) : Except DocError (String × FS) :=
  if Storage.DocumentExists fs documentID = false then .error .notFound
  else
    match extFiles.lookup sourcePath with
    | none => .error .storage
    | some content =>
        let filename := goBase sourcePath
        match findEntry fs.entries documentID with
        | some (.dir d) =>
            if d.hasMediaDir then
              .ok ("media/" ++ filename,
                ⟨setEntry fs.entries documentID
                  (.dir { d with media := setMedia d.media filename content })⟩)
            else .error .storage
        | _ => .error .notFound

/-- Go `Storage.DeleteDocument`: not-found unless `DocumentExists`; then
`os.RemoveAll` of the document directory. -/
def Storage.DeleteDocument (fs : FS) (documentID : String) : Except DocError FS :=
  if Storage.DocumentExists fs documentID = false then .error .notFound
  else .ok ⟨removeEntry fs.entries documentID⟩

/-! ## Document service (Service, part_001) -/

/-- Go `Service.CreateDocument`: reject empty name/content, generate the id
against the storage existence predicate, stamp both timestamps with `now`,
persist. -/
def Service.CreateDocument (fs : FS) (draws : Nat → Option (List Nat)) (now : Nat)
    (name htmlContent : String) : Except DocError (Document × FS) :=
  if name = "" then .error .validation
  else if htmlContent = "" then .error .validation
  else
    let documentID := GenerateDocumentID name (fun id => Storage.DocumentExists fs id) draws
    let doc : Document := ⟨documentID, name, htmlContent, now, now⟩
    match Storage.CreateDocument fs doc with
    | .error e => .error e
    | .ok fs2 => .ok (doc, fs2)

/-- Go `Service.UpdateDocument`: reject an invalid id or empty content, fetch
the current document, replace `htmlContent`, refresh `updatedAt` to `now`,
persist. -/
def Service.UpdateDocument (fs : FS) (now : Nat) (documentID htmlContent : String) :
    Except DocError (Document × FS) :=
  if ValidateDocumentID documentID = false then .error .validation
  else if htmlContent = "" then .error .validation
  else
    match Storage.GetDocument fs documentID with
    | .error e => .error e
    | .ok doc =>
        let doc2 := { doc with htmlContent := htmlContent, updatedAt := now }
        match Storage.UpdateDocument fs doc2 with
        | .error e => .error e
        | .ok fs2 => .ok (doc2, fs2)

/-- Go `Service.GetDocument`: id validation, then delegate. -/
def Service.GetDocument (fs : FS) (documentID : String) : Except DocError Document :=
  if ValidateDocumentID documentID = false then .error .validation
  else Storage.GetDocument fs documentID

/-- Go `Service.AddMedia`: reject an invalid id, an empty source path, or a
media type outside `{image, video}`; then delegate the copy. -/
def Service.AddMedia (fs : FS) (extFiles : List (String × String))
    (documentID sourcePath mediaType : String) : Except DocError (String × FS) :=
  if ValidateDocumentID documentID = false then .error .validation
  else if sourcePath = "" then .error .validation
  else if mediaType ≠ "image" ∧ mediaType ≠ "video" then .error .validation
  else Storage.CopyMediaFile fs extFiles documentID sourcePath

/-- Go `Service.DeleteDocument`: id validation, then delegate. -/
def Service.DeleteDocument (fs : FS) (documentID : String) : Except DocError FS :=
  if ValidateDocumentID documentID = false then .error .validation
  else Storage.DeleteDocument fs documentID

/-! ## Helper lemmas -/

theorem data_append (a b : String) : (a ++ b).data = a.data ++ b.data := by
  cases a
  cases b
  rfl

theorem genLoop_some {slugified : String} {existsFunc : String → Bool}
    {draws : Nat → Option (List Nat)} {attempt fuel : Nat} {id : String}
    (h : genLoop slugified existsFunc draws attempt fuel = some id) :
    ∃ j, attempt ≤ j ∧ j < attempt + fuel ∧
      id = slugified ++ "-" ++ generateRandomSuffix (draws j) ∧
      existsFunc id = false := by
  induction fuel generalizing attempt with
  | zero => simp [genLoop] at h
  | succ n ih =>
    simp only [genLoop] at h
    by_cases hex : existsFunc (slugified ++ "-" ++ generateRandomSuffix (draws attempt)) = false
    · rw [if_pos hex] at h
      obtain rfl : slugified ++ "-" ++ generateRandomSuffix (draws attempt) = id :=
        Option.some.inj h
      exact ⟨attempt, Nat.le_refl _, by omega, rfl, hex⟩
    · rw [if_neg hex] at h
      obtain ⟨j, hj1, hj2, hj3, hj4⟩ := ih h
      exact ⟨j, by omega, by omega, hj3, hj4⟩

theorem generateRandomSuffix_length_le (draw : Option (List Nat)) :
    (generateRandomSuffix draw).data.length ≤ SuffixLength := by
  cases draw with
  | none => decide
  | some bytes =>
    show (List.take SuffixLength (hexEncodeToString bytes).data).length ≤ SuffixLength
    rw [List.length_take]
    exact Nat.min_le_left _ _

theorem generateRandomSuffix_length_eq {bytes : List Nat} (h : bytes.length = 3) :
    (generateRandomSuffix (some bytes)).data.length = SuffixLength := by
  match bytes, h with
  | [a, b, c], _ =>
    simp [generateRandomSuffix, hexEncodeToString, SuffixLength]

/-- Lowercase hexadecimal character. -/
def isLowerHexChar (c : Char) : Bool :=
  (('0' ≤ c && c ≤ '9') || ('a' ≤ c && c ≤ 'f'))

theorem hexDigit_lower (n : Nat) : isLowerHexChar (hexDigit n) = true := by
  have h : n % 16 < 16 := Nat.mod_lt _ (by norm_num)
  unfold hexDigit
  set m := n % 16 with hm
  interval_cases m <;> decide

theorem generateRandomSuffix_lower (draw : Option (List Nat)) :
    ∀ c ∈ (generateRandomSuffix draw).data, isLowerHexChar c = true := by
  cases draw with
  | none => decide
  | some bytes =>
    intro c hc
    simp only [generateRandomSuffix] at hc
    have hc2 : c ∈ (hexEncodeToString bytes).data := List.take_subset _ _ hc
    simp only [hexEncodeToString, List.mem_flatMap] at hc2
    obtain ⟨b, _, hb⟩ := hc2
    have hor : c = hexDigit (b / 16) ∨ c = hexDigit (b % 16) := by simpa using hb
    rcases hor with rfl | rfl <;> exact hexDigit_lower _

theorem slugTrimmed_ne_nil (name : String) : (slugTrimmed name).data ≠ [] := by
  simp only [slugTrimmed]
  split_ifs with h1 h2 h3
  · decide
  · exact h2
  · decide
  · exact h3

theorem slugTrimmed_length_le (name : String) :
    (slugTrimmed name).data.length ≤ MaxSlugLength := by
  simp only [slugTrimmed]
  split_ifs with h1 h2 h3
  · decide
  · show (List.take MaxSlugLength (slugMake name).data).length ≤ MaxSlugLength
    rw [List.length_take]
    exact Nat.min_le_left _ _
  · decide
  · exact Nat.not_lt.mp h1

theorem validate_slug_suffix (slug suffix : String)
    (hl : slug.data.length ≤ MaxSlugLength)
    (hsl : suffix.data.length ≤ SuffixLength) :
    ValidateDocumentID (slug ++ "-" ++ suffix) = true := by
  have hdata : (slug ++ "-" ++ suffix).data = (slug.data ++ ['-']) ++ suffix.data := by
    rw [data_append, data_append]
  have h1 : ¬((slug.data ++ ['-']) ++ suffix.data = []) := by simp
  have h2 : ¬((!((slug.data ++ ['-']) ++ suffix.data).contains '-') = true) := by simp
  have h3 : ¬(((slug.data ++ ['-']) ++ suffix.data).length > MaxSlugLength + SuffixLength + 1) := by
    simp only [List.length_append, List.length_cons, List.length_nil,
      MaxSlugLength, SuffixLength] at hl hsl ⊢
    omega
  unfold ValidateDocumentID
  rw [hdata, if_neg h1, if_neg h2, if_neg h3]

theorem genLoop_valid {name : String} {existsFunc : String → Bool}
    {draws : Nat → Option (List Nat)} {attempt fuel : Nat} {id : String}
    (h : genLoop (slugTrimmed name) existsFunc draws attempt fuel = some id) :
    ValidateDocumentID id = true := by
  obtain ⟨j, _, _, rfl, _⟩ := genLoop_some h
  exact validate_slug_suffix _ _ (slugTrimmed_length_le name)
    (generateRandomSuffix_length_le (draws j))

/-! ## Claim C2 -/

/-- Claim C2: `InjectDefaultPrintStyles` inserts the fixed style block
immediately before the first case-insensitive occurrence of `"</head>"`; when
none exists, immediately after the closing `>` of the first case-insensitive
`"<body"` tag; when neither tag exists, it prepends the block; in every case
the output is the original content with a single contiguous block inserted
(nothing lost), and in the neither-tag case the injected block precedes all
original content. -/
theorem claim_C2 (html : String) :
    (∀ i, subIdx (html.data.map Char.toLower) headClose = some i →
      headClose <+: (html.data.map Char.toLower).drop i ∧
      (∀ j, j < i → ¬ headClose <+: (html.data.map Char.toLower).drop j) ∧
      (InjectDefaultPrintStyles html).data =
        html.data.take i ++ defaultPrintStyles.data ++ '\n' :: html.data.drop i) ∧
    (∀ i e, subIdx (html.data.map Char.toLower) headClose = none →
      subIdx (html.data.map Char.toLower) bodyOpen = some i →
      subIdx (html.data.drop i) ['>'] = some e →
      bodyOpen <+: (html.data.map Char.toLower).drop i ∧
      (∀ j, j < i → ¬ bodyOpen <+: (html.data.map Char.toLower).drop j) ∧
      ['>'] <+: (html.data.drop i).drop e ∧
      (∀ j, j < e → ¬ ['>'] <+: (html.data.drop i).drop j) ∧
      (InjectDefaultPrintStyles html).data =
        html.data.take (i + e + 1) ++
          '\n' :: defaultPrintStyles.data ++ '\n' :: html.data.drop (i + e + 1)) ∧
    (subIdx (html.data.map Char.toLower) headClose = none →
      subIdx (html.data.map Char.toLower) bodyOpen = none →
      (InjectDefaultPrintStyles html).data = defaultPrintStyles.data ++ '\n' :: html.data) ∧
    (∃ n ins, (InjectDefaultPrintStyles html).data =
      html.data.take n ++ ins ++ html.data.drop n) := by
  refine ⟨?_, ?_, ?_, ?_⟩
  · intro i hi
    obtain ⟨h1, h2⟩ := subIdx_found hi
    exact ⟨h1, h2, by simp [InjectDefaultPrintStyles, injectCore, hi]⟩
  · intro i e h0 hi he
    obtain ⟨h1, h2⟩ := subIdx_found hi
    obtain ⟨h3, h4⟩ := subIdx_found he
    exact ⟨h1, h2, h3, h4, by simp [InjectDefaultPrintStyles, injectCore, h0, hi, he]⟩
  · intro h0 hb
    simp [InjectDefaultPrintStyles, injectCore, h0, hb]
  · rcases h1 : subIdx (html.data.map Char.toLower) headClose with _ | i
    · rcases h2 : subIdx (html.data.map Char.toLower) bodyOpen with _ | i
      · exact ⟨0, defaultPrintStyles.data ++ ['\n'],
          by simp [InjectDefaultPrintStyles, injectCore, h1, h2]⟩
      · rcases h3 : subIdx (html.data.drop i) ['>'] with _ | e
        · exact ⟨0, defaultPrintStyles.data ++ ['\n'],
            by simp [InjectDefaultPrintStyles, injectCore, h1, h2, h3]⟩
        · exact ⟨i + e + 1, '\n' :: defaultPrintStyles.data ++ ['\n'],
            by simp [InjectDefaultPrintStyles, injectCore, h1, h2, h3]⟩
    · exact ⟨i, defaultPrintStyles.data ++ ['\n'],
        by simp [InjectDefaultPrintStyles, injectCore, h1]⟩

/-- Witness for C2: a document with a head section gets the block inserted at
the first `"</head>"` (index 6), and a document with neither tag gets it
prepended. -/
theorem claim_C2_witness :
    (InjectDefaultPrintStyles "<head></head>ok").data =
      "<head></head>ok".data.take 6 ++ defaultPrintStyles.data ++
        '\n' :: "<head></head>ok".data.drop 6 ∧
    (InjectDefaultPrintStyles "plain").data =
      defaultPrintStyles.data ++ '\n' :: "plain".data := by
  constructor
  · exact ((claim_C2 "<head></head>ok").1 6 (by decide)).2.2
  · exact (claim_C2 "plain").2.2.1 (by decide) (by decide)

/-! ## Claim C5 -/

theorem generateRandomSuffix_length (draws : Nat → Option (List Nat))
    (hdraws : ∀ i bs, draws i = some bs → bs.length = 3) (i : Nat) :
    (generateRandomSuffix (draws i)).data.length = SuffixLength := by
  cases hd : draws i with
  | none => decide
  | some bs => exact generateRandomSuffix_length_eq (hdraws i bs hd)

/-- Counterexample to C5 as stated: with an existence predicate that reports
every candidate ID as taken, the 100-attempt loop is exhausted and the
fallback concatenates two suffix draws, so the generated ID
(`"note-abcdabcd"`) has an 8-character suffix after the slug, not a
4-character one. -/
theorem claim_C5_counterexample :
    GenerateDocumentID "note" (fun _ => true) (fun _ => some [0xab, 0xcd, 0x01]) =
      "note-abcdabcd" ∧
    slugTrimmed "note" = "note" ∧
    ∀ suffix : String, suffix.data.length = SuffixLength →
      GenerateDocumentID "note" (fun _ => true) (fun _ => some [0xab, 0xcd, 0x01]) ≠
        slugTrimmed "note" ++ "-" ++ suffix := by
  refine ⟨by decide, by decide, ?_⟩
  intro suffix hlen heq
  rw [(by decide : GenerateDocumentID "note" (fun _ => true)
        (fun _ => some [0xab, 0xcd, 0x01]) = "note-abcdabcd"),
    (by decide : slugTrimmed "note" = "note")] at heq
  have hlen2 := congrArg (fun s : String => s.data.length) heq
  simp only [data_append, List.length_append] at hlen2
  rw [(by decide : ("note-abcdabcd" : String).data.length = 13),
    (by decide : ("note" : String).data.length = 4),
    (by decide : ("-" : String).data.length = 1)] at hlen2
  rw [(by rfl : SuffixLength = 4)] at hlen
  omega

/-- Claim C5, amended: the generated ID is `slugTrimmed name ++ "-" ++ suffix`
where the slug is the normalized name trimmed to at most 30 characters (the
literal `"document"` when the normalized name is empty) and the suffix
consists of lowercase hexadecimal characters — 4 of them when some attempt
among the 100 finds a free ID, 8 on the collision-fallback path; a name whose
normalized slug exceeds 30 characters yields a slug portion of exactly 30
characters. -/
theorem claim_C5_amended (name : String) (existsFunc : String → Bool)
    (draws : Nat → Option (List Nat))
    (hdraws : ∀ i bs, draws i = some bs → bs.length = 3) :
    (∃ suffix : String,
      GenerateDocumentID name existsFunc draws = slugTrimmed name ++ "-" ++ suffix ∧
      (∀ c ∈ suffix.data, isLowerHexChar c = true) ∧
      ((genLoop (slugTrimmed name) existsFunc draws 0 100).isSome = true →
        suffix.data.length = SuffixLength) ∧
      (genLoop (slugTrimmed name) existsFunc draws 0 100 = none →
        suffix.data.length = 2 * SuffixLength)) ∧
    ((slugMake name).data.length > MaxSlugLength →
      slugTrimmed name = (⟨(slugMake name).data.take MaxSlugLength⟩ : String) ∧
      (slugTrimmed name).data.length = MaxSlugLength) ∧
    ((slugMake name).data.length ≤ MaxSlugLength → (slugMake name).data ≠ [] →
      slugTrimmed name = slugMake name) ∧
    ((slugMake name).data = [] → slugTrimmed name = "document") := by
  refine ⟨?_, ?_, ?_, ?_⟩
  · rcases hloop : genLoop (slugTrimmed name) existsFunc draws 0 100 with _ | id
    · refine ⟨generateRandomSuffix (draws 100) ++ generateRandomSuffix (draws 101),
        ?_, ?_, ?_, ?_⟩
      · simp only [GenerateDocumentID]
        rw [hloop]
      · intro c hc
        rw [data_append] at hc
        rcases List.mem_append.mp hc with h | h
        · exact generateRandomSuffix_lower _ c h
        · exact generateRandomSuffix_lower _ c h
      · intro hs
        simp at hs
      · intro _
        rw [data_append, List.length_append,
          generateRandomSuffix_length draws hdraws 100,
          generateRandomSuffix_length draws hdraws 101, Nat.two_mul]
    · obtain ⟨j, _, _, hid, _⟩ := genLoop_some hloop
      refine ⟨generateRandomSuffix (draws j), ?_, ?_, ?_, ?_⟩
      · simp only [GenerateDocumentID]
        rw [hloop, hid]
      · exact generateRandomSuffix_lower _
      · intro _
        exact generateRandomSuffix_length draws hdraws j
      · intro hn
        exact Option.noConfusion hn
  · intro hgt
    have hne : (List.take MaxSlugLength (slugMake name).data) ≠ [] := by
      intro hnil
      have hlt := congrArg List.length hnil
      rw [List.length_take] at hlt
      simp only [MaxSlugLength, List.length_nil] at hlt hgt
      omega
    constructor
    · simp only [slugTrimmed]
      rw [if_pos hgt, if_neg hne]
    · simp only [slugTrimmed]
      rw [if_pos hgt, if_neg hne]
      show (List.take MaxSlugLength (slugMake name).data).length = MaxSlugLength
      rw [List.length_take]
      simp only [MaxSlugLength] at hgt ⊢
      omega
  · intro hle hne
    simp only [slugTrimmed]
    rw [if_neg (Nat.not_lt.mpr hle), if_neg hne]
  · intro hnil
    have hcond : ¬((slugMake name).data.length > MaxSlugLength) := by
      rw [hnil]
      decide
    simp only [slugTrimmed]
    rw [if_neg hcond, if_pos hnil]

/-- Witness for the amended C5 at a concrete input: `"My Report"` with a
collision-free existence predicate yields `slugTrimmed "My Report" ++ "-" ++
suffix` with a 4-character suffix. -/
theorem claim_C5_amended_witness :
    ∃ suffix : String,
      GenerateDocumentID "My Report" (fun _ => false) (fun _ => some [0xa3, 0xf9, 0x55]) =
        slugTrimmed "My Report" ++ "-" ++ suffix ∧
      suffix.data.length = SuffixLength := by
  obtain ⟨⟨suffix, h1, _, h3, _⟩, _, _, _⟩ := claim_C5_amended "My Report" (fun _ => false)
    (fun _ => some [0xa3, 0xf9, 0x55]) (fun i bs h => by cases h; rfl)
  exact ⟨suffix, h1, h3 (by decide)⟩

/-! ## Storage state lemmas -/

theorem findEntry_setEntry_self (l : List (String × RootEntry)) (id : String) (v : RootEntry) :
    findEntry (setEntry l id v) id = some v := by
  induction l with
  | nil => simp [setEntry, findEntry]
  | cons kv rest ih =>
    obtain ⟨k, w⟩ := kv
    by_cases hk : k = id
    · simp [setEntry, hk, findEntry]
    · simp [setEntry, hk, findEntry, ih]

theorem findEntry_setEntry_ne (l : List (String × RootEntry)) {id id' : String}
    (v : RootEntry) (h : id' ≠ id) :
    findEntry (setEntry l id v) id' = findEntry l id' := by
  induction l with
  | nil => simp [setEntry, findEntry, Ne.symm h]
  | cons kv rest ih =>
    obtain ⟨k, w⟩ := kv
    by_cases hk : k = id
    · subst hk
      simp [setEntry, findEntry, Ne.symm h, fun hh : k = id' => h (hh ▸ rfl)]
    · by_cases hk2 : k = id'
      · simp [setEntry, hk, findEntry, hk2, h]
      · simp [setEntry, hk, findEntry, hk2, ih]

theorem createDocument_state {fs : FS} {doc : Document} {fs2 : FS}
    (h : Storage.CreateDocument fs doc = .ok fs2) :
    ∃ d : DirEntry, findEntry fs2.entries doc.id = some (.dir d) ∧
      d.html = some doc.htmlContent ∧
      d.meta = .valid ⟨doc.name, doc.createdAt, doc.updatedAt⟩ := by
  unfold Storage.CreateDocument at h
  cases hf : findEntry fs.entries doc.id with
  | none =>
    simp only [hf] at h
    injection h with h2
    subst h2
    exact ⟨_, findEntry_setEntry_self _ _ _, rfl, rfl⟩
  | some e =>
    cases e with
    | file c =>
      simp only [hf] at h
      exact Except.noConfusion h
    | dir d =>
      simp only [hf] at h
      injection h with h2
      subst h2
      exact ⟨_, findEntry_setEntry_self _ _ _, rfl, rfl⟩

theorem serviceCreate_ok {fs : FS} {draws : Nat → Option (List Nat)} {now : Nat}
    {name htmlContent : String} {doc : Document} {fs2 : FS}
    (h : Service.CreateDocument fs draws now name htmlContent = .ok (doc, fs2)) :
    doc = ⟨GenerateDocumentID name (fun id => Storage.DocumentExists fs id) draws,
      name, htmlContent, now, now⟩ ∧
    Storage.CreateDocument fs doc = .ok fs2 := by
  simp only [Service.CreateDocument] at h
  by_cases h1 : name = ""
  · rw [if_pos h1] at h
    exact Except.noConfusion h
  rw [if_neg h1] at h
  by_cases h2 : htmlContent = ""
  · rw [if_pos h2] at h
    exact Except.noConfusion h
  rw [if_neg h2] at h
  cases hc : Storage.CreateDocument fs
      ⟨GenerateDocumentID name (fun id => Storage.DocumentExists fs id) draws,
       name, htmlContent, now, now⟩ with
  | error e =>
    rw [hc] at h
    exact Except.noConfusion h
  | ok fs' =>
    rw [hc] at h
    injection h with h3
    injection h3 with ha hb
    subst ha
    subst hb
    exact ⟨rfl, hc⟩

/-! ## Claim C1 -/

/-- The root state for the C1 counterexample: one document whose ID already
carries the suffix that every random draw will produce (so all 100 candidate
IDs collide). -/
def fsC1 : FS :=
  ⟨[("aaaaaaaaaaaaaaaaaaaaaaaaaaaaaa-abcd",
     .dir ⟨some "<p>old</p>", .valid ⟨"old", 0, 0⟩, true, []⟩)]⟩

/-- Counterexample to C1 as stated: creating a document with a 30-character
slug in a state where all 100 candidate IDs collide succeeds through the
100-attempt fallback path, but the returned 39-character ID fails
`ValidateDocumentID` (39 > 35). -/
theorem claim_C1_counterexample :
    (Service.CreateDocument fsC1 (fun _ => some [0xab, 0xcd, 0x01]) 5
        "aaaaaaaaaaaaaaaaaaaaaaaaaaaaaa" "<p>x</p>").toOption.map
      (fun r => ValidateDocumentID r.1.id) = some false := by
  decide

/-- Claim C1, amended: for every valid input pair, a successful
`createDocument` returns a document for which `DocumentExists` is true
immediately afterwards; the returned ID additionally satisfies
`ValidateDocumentID` whenever it was produced within the 100 collision
attempts (on the fallback path the 8-character double suffix can push the ID
past 35 characters). -/
theorem claim_C1_amended (fs : FS) (draws : Nat → Option (List Nat)) (now : Nat)
    (name htmlContent : String) (doc : Document) (fs2 : FS)
    (h : Service.CreateDocument fs draws now name htmlContent = .ok (doc, fs2)) :
    Storage.DocumentExists fs2 doc.id = true ∧
    ((genLoop (slugTrimmed name) (fun id => Storage.DocumentExists fs id)
        draws 0 100).isSome = true →
      ValidateDocumentID doc.id = true) := by
  obtain ⟨hdoc, hcreate⟩ := serviceCreate_ok h
  constructor
  · obtain ⟨d, hfind, hhtml, _⟩ := createDocument_state hcreate
    simp [Storage.DocumentExists, hfind, hhtml]
  · intro hs
    rcases hloop : genLoop (slugTrimmed name)
        (fun id => Storage.DocumentExists fs id) draws 0 100 with _ | id
    · rw [hloop] at hs
      simp at hs
    · have hid : doc.id = id := by
        rw [hdoc]
        simp only [GenerateDocumentID]
        rw [hloop]
      rw [hid]
      exact genLoop_valid hloop

/-- Witness for the amended C1: creating `"My Report"` in an empty root
yields `"my-report-a3f9"`, which exists afterwards and passes validation. -/
theorem claim_C1_amended_witness :
    Storage.DocumentExists
      ⟨[("my-report-a3f9",
         .dir ⟨some "<h1>Hi</h1>", .valid ⟨"My Report", 7, 7⟩, true, []⟩)]⟩
      "my-report-a3f9" = true ∧
    ValidateDocumentID "my-report-a3f9" = true := by
  have h := claim_C1_amended ⟨[]⟩ (fun _ => some [0xa3, 0xf9, 0x55]) 7
    "My Report" "<h1>Hi</h1>"
    ⟨"my-report-a3f9", "My Report", "<h1>Hi</h1>", 7, 7⟩
    ⟨[("my-report-a3f9",
       .dir ⟨some "<h1>Hi</h1>", .valid ⟨"My Report", 7, 7⟩, true, []⟩)]⟩
    (by rfl)
  exact ⟨h.1, h.2 (by decide)⟩

/-! ## Claim C4 -/

/-- Claim C4: round-trip — for every non-empty name and html, a successful
`createDocument` followed by a storage `GetDocument` of the returned ID
yields a document whose `name` and `htmlContent` equal the inputs and whose
`createdAt` equals its `updatedAt` (both are the creation time). -/
theorem claim_C4 (fs : FS) (draws : Nat → Option (List Nat)) (now : Nat)
    (name htmlContent : String) (doc : Document) (fs2 : FS)
    (_hname : name ≠ "") (_hhtml : htmlContent ≠ "")
    (h : Service.CreateDocument fs draws now name htmlContent = .ok (doc, fs2)) :
    Storage.GetDocument fs2 doc.id = .ok ⟨doc.id, name, htmlContent, now, now⟩ := by
  obtain ⟨hdoc, hcreate⟩ := serviceCreate_ok h
  obtain ⟨d, hfind, hhtml2, hmeta⟩ := createDocument_state hcreate
  subst hdoc
  simp only [Storage.GetDocument, hfind, hhtml2, hmeta]

/-- Witness for C4: the concrete round trip for `"My Report"` in an empty
root. -/
theorem claim_C4_witness :
    Storage.GetDocument
      ⟨[("my-report-b2c4",
         .dir ⟨some "<h1>Hello</h1>", .valid ⟨"My Report", 11, 11⟩, true, []⟩)]⟩
      "my-report-b2c4" =
      .ok ⟨"my-report-b2c4", "My Report", "<h1>Hello</h1>", 11, 11⟩ := by
  exact claim_C4 ⟨[]⟩ (fun _ => some [0xb2, 0xc4, 0x00]) 11 "My Report" "<h1>Hello</h1>"
    ⟨"my-report-b2c4", "My Report", "<h1>Hello</h1>", 11, 11⟩
    ⟨[("my-report-b2c4",
       .dir ⟨some "<h1>Hello</h1>", .valid ⟨"My Report", 11, 11⟩, true, []⟩)]⟩
    (by decide) (by decide) (by rfl)

/-! ## Claim C3 -/

theorem getDocument_notFound {fs : FS} {documentID : String}
    (h : Storage.DocumentExists fs documentID = false) :
    Storage.GetDocument fs documentID = .error .notFound := by
  unfold Storage.DocumentExists at h
  unfold Storage.GetDocument
  cases hf : findEntry fs.entries documentID with
  | none => simp [hf]
  | some e =>
    cases e with
    | file c => simp [hf]
    | dir d =>
      simp only [hf] at h
      cases hh : d.html with
      | none => simp [hf, hh]
      | some c =>
        rw [hh] at h
        simp at h

theorem getDocument_id {fs : FS} {documentID : String} {doc : Document}
    (h : Storage.GetDocument fs documentID = .ok doc) : doc.id = documentID := by
  unfold Storage.GetDocument at h
  cases hf : findEntry fs.entries documentID with
  | none => rw [hf] at h; exact Except.noConfusion h
  | some e =>
    cases e with
    | file c => rw [hf] at h; exact Except.noConfusion h
    | dir d =>
      simp only [hf] at h
      cases hh : d.html with
      | none => rw [hh] at h; exact Except.noConfusion h
      | some c =>
        rw [hh] at h
        cases hm : d.meta with
        | absent => rw [hm] at h; exact Except.noConfusion h
        | corrupt => rw [hm] at h; exact Except.noConfusion h
        | valid m =>
          rw [hm] at h
          injection h with h2
          rw [← h2]

theorem updateDocument_state {fs : FS} {doc : Document} {fs2 : FS}
    (h : Storage.UpdateDocument fs doc = .ok fs2) :
    ∃ d : DirEntry, findEntry fs2.entries doc.id = some (.dir d) ∧
      d.html = some doc.htmlContent ∧
      d.meta = .valid ⟨doc.name, doc.createdAt, doc.updatedAt⟩ := by
  unfold Storage.UpdateDocument at h
  cases hf : findEntry fs.entries doc.id with
  | none =>
    rw [hf] at h
    exact Except.noConfusion h
  | some e =>
    cases e with
    | file c =>
      rw [hf] at h
      exact Except.noConfusion h
    | dir d =>
      simp only [hf] at h
      by_cases hh : d.html.isSome = true
      · rw [if_pos hh] at h
        injection h with h2
        subst h2
        exact ⟨_, findEntry_setEntry_self _ _ _, rfl, rfl⟩
      · rw [if_neg hh] at h
        exact Except.noConfusion h

theorem updateDocument_ok {fs : FS} {doc : Document} {d : DirEntry}
    (hfind : findEntry fs.entries doc.id = some (.dir d)) (hh : d.html.isSome = true) :
    Storage.UpdateDocument fs doc =
      .ok ⟨setEntry fs.entries doc.id (.dir { d with
        html := some doc.htmlContent,
        meta := .valid ⟨doc.name, doc.createdAt, doc.updatedAt⟩ })⟩ := by
  unfold Storage.UpdateDocument
  simp only [hfind]
  rw [if_pos hh]

theorem getDocument_after_update {fs : FS} {doc : Document} {fs2 : FS}
    (h : Storage.UpdateDocument fs doc = .ok fs2) :
    Storage.GetDocument fs2 doc.id = .ok doc := by
  obtain ⟨d, hfind, hhtml, hmeta⟩ := updateDocument_state h
  simp only [Storage.GetDocument, hfind, hhtml, hmeta]

theorem serviceUpdate_ok {fs : FS} {now : Nat} {documentID htmlContent : String}
    {doc2 : Document} {fs2 : FS}
    (h : Service.UpdateDocument fs now documentID htmlContent = .ok (doc2, fs2)) :
    ValidateDocumentID documentID = true ∧ htmlContent ≠ "" ∧
    ∃ doc, Storage.GetDocument fs documentID = .ok doc ∧
      doc2 = { doc with htmlContent := htmlContent, updatedAt := now } ∧
      Storage.UpdateDocument fs doc2 = .ok fs2 := by
  simp only [Service.UpdateDocument] at h
  by_cases h1 : ValidateDocumentID documentID = false
  · rw [if_pos h1] at h
    exact Except.noConfusion h
  rw [if_neg h1] at h
  by_cases h2 : htmlContent = ""
  · rw [if_pos h2] at h
    exact Except.noConfusion h
  rw [if_neg h2] at h
  refine ⟨by simpa using h1, h2, ?_⟩
  cases hg : Storage.GetDocument fs documentID with
  | error e =>
    rw [hg] at h
    exact Except.noConfusion h
  | ok doc =>
    simp only [hg] at h
    cases hu : Storage.UpdateDocument fs
        { doc with htmlContent := htmlContent, updatedAt := now } with
    | error e =>
      simp only [hu] at h
      exact Except.noConfusion h
    | ok fs' =>
      simp only [hu] at h
      injection h with h3
      injection h3 with ha hb
      subst ha
      subst hb
      exact ⟨doc, rfl, rfl, hu⟩

theorem updateDocument_notFound {fs : FS} {doc : Document}
    (h : Storage.DocumentExists fs doc.id = false) :
    Storage.UpdateDocument fs doc = .error .notFound := by
  unfold Storage.DocumentExists at h
  unfold Storage.UpdateDocument
  cases hf : findEntry fs.entries doc.id with
  | none => simp [hf]
  | some e =>
    cases e with
    | file c => simp [hf]
    | dir d =>
      simp only [hf] at h
      simp [hf, h]

/-- Claim C3: updating a document whose HTML body does not exist fails with a
not-found error (unconditionally at the storage layer; at the service layer
for a syntactically valid ID — an invalid ID is rejected with a validation
error first); on success the update replaces `htmlContent`, preserves `name`
and `createdAt` from the stored document, refreshes `updatedAt` to the update
time, and persists the result; a second update with the same html succeeds,
leaves `htmlContent` unchanged and only advances `updatedAt` monotonically
(given monotone clock readings). -/
theorem claim_C3 (fs : FS) (now now2 : Nat) (documentID htmlContent : String) :
    (∀ doc : Document, Storage.DocumentExists fs doc.id = false →
      Storage.UpdateDocument fs doc = .error .notFound) ∧
    (ValidateDocumentID documentID = true → htmlContent ≠ "" →
      Storage.DocumentExists fs documentID = false →
      Service.UpdateDocument fs now documentID htmlContent = .error .notFound) ∧
    (∀ doc2 fs2,
      Service.UpdateDocument fs now documentID htmlContent = .ok (doc2, fs2) →
      ∃ doc, Storage.GetDocument fs documentID = .ok doc ∧
        doc2.htmlContent = htmlContent ∧ doc2.name = doc.name ∧
        doc2.createdAt = doc.createdAt ∧ doc2.updatedAt = now ∧
        Storage.GetDocument fs2 documentID = .ok doc2) ∧
    (∀ doc2 fs2,
      Service.UpdateDocument fs now documentID htmlContent = .ok (doc2, fs2) →
      now ≤ now2 →
      ∃ doc3 fs3,
        Service.UpdateDocument fs2 now2 documentID htmlContent = .ok (doc3, fs3) ∧
        doc3.htmlContent = doc2.htmlContent ∧
        doc2.updatedAt ≤ doc3.updatedAt) := by
  refine ⟨?_, ?_, ?_, ?_⟩
  · intro doc hne
    exact updateDocument_notFound hne
  · intro hv hh hne
    simp only [Service.UpdateDocument]
    rw [if_neg (by rw [hv]; simp), if_neg hh, getDocument_notFound hne]
  · intro doc2 fs2 h
    obtain ⟨_, _, doc, hg, hdoc2, hu⟩ := serviceUpdate_ok h
    have hid : doc.id = documentID := getDocument_id hg
    have hid2 : doc2.id = documentID := by rw [hdoc2]; exact hid
    refine ⟨doc, hg, by rw [hdoc2], by rw [hdoc2], by rw [hdoc2], by rw [hdoc2], ?_⟩
    rw [← hid2]
    exact getDocument_after_update hu
  · intro doc2 fs2 h hmono
    obtain ⟨hv, hh, doc, hg, hdoc2, hu⟩ := serviceUpdate_ok h
    have hid : doc.id = documentID := getDocument_id hg
    have hid2 : doc2.id = documentID := by rw [hdoc2]; exact hid
    obtain ⟨d, hfind, hhtml, hmeta⟩ := updateDocument_state hu
    have hget2 : Storage.GetDocument fs2 documentID = .ok doc2 := by
      rw [← hid2]
      exact getDocument_after_update hu
    have hfind2 : findEntry fs2.entries
        ({ doc2 with htmlContent := htmlContent, updatedAt := now2 } : Document).id =
          some (.dir d) := by
      show findEntry fs2.entries doc2.id = some (.dir d)
      exact hfind
    have hupd2 := updateDocument_ok hfind2 (by rw [hhtml]; rfl)
    have hserv : Service.UpdateDocument fs2 now2 documentID htmlContent =
        .ok ({ doc2 with htmlContent := htmlContent, updatedAt := now2 },
          ⟨setEntry fs2.entries doc2.id (.dir { d with
            html := some htmlContent,
            meta := .valid ⟨doc2.name, doc2.createdAt, now2⟩ })⟩) := by
      simp only [Service.UpdateDocument]
      rw [if_neg (by rw [hv]; simp), if_neg hh]
      simp only [hget2]
      simp only [hupd2]
    refine ⟨{ doc2 with htmlContent := htmlContent, updatedAt := now2 }, _, hserv, ?_, ?_⟩
    · rw [hdoc2]
    · rw [hdoc2]
      exact hmono

/-- Witness for C3 at concrete inputs: a valid-but-absent ID is rejected with
not-found, and a concrete update on an existing document persists the new
content with a refreshed timestamp and can be repeated. -/
theorem claim_C3_witness :
    Storage.UpdateDocument
      ⟨[("doc-ab12", .dir ⟨some "<p>old</p>", .valid ⟨"Doc", 1, 1⟩, true, []⟩)]⟩
      ⟨"gone-ff99", "G", "<p>z</p>", 0, 0⟩ = .error .notFound ∧
    Service.UpdateDocument
      ⟨[("doc-ab12", .dir ⟨some "<p>old</p>", .valid ⟨"Doc", 1, 1⟩, true, []⟩)]⟩
      5 "gone-ff99" "<p>new</p>" = .error .notFound ∧
    (∃ doc, Storage.GetDocument
        ⟨[("doc-ab12", .dir ⟨some "<p>old</p>", .valid ⟨"Doc", 1, 1⟩, true, []⟩)]⟩
        "doc-ab12" = .ok doc ∧
      (⟨"doc-ab12", "Doc", "<p>new</p>", 1, 5⟩ : Document).htmlContent = "<p>new</p>" ∧
      (⟨"doc-ab12", "Doc", "<p>new</p>", 1, 5⟩ : Document).name = doc.name ∧
      (⟨"doc-ab12", "Doc", "<p>new</p>", 1, 5⟩ : Document).createdAt = doc.createdAt ∧
      (⟨"doc-ab12", "Doc", "<p>new</p>", 1, 5⟩ : Document).updatedAt = 5 ∧
      Storage.GetDocument
        ⟨[("doc-ab12", .dir ⟨some "<p>new</p>", .valid ⟨"Doc", 1, 5⟩, true, []⟩)]⟩
        "doc-ab12" = .ok ⟨"doc-ab12", "Doc", "<p>new</p>", 1, 5⟩) ∧
    (∃ doc3 fs3, Service.UpdateDocument
        ⟨[("doc-ab12", .dir ⟨some "<p>new</p>", .valid ⟨"Doc", 1, 5⟩, true, []⟩)]⟩
        9 "doc-ab12" "<p>new</p>" = .ok (doc3, fs3) ∧
      doc3.htmlContent = "<p>new</p>" ∧ (5 : Nat) ≤ doc3.updatedAt) := by
  refine ⟨?_, ?_, ?_, ?_⟩
  · exact (claim_C3 ⟨[("doc-ab12",
        .dir ⟨some "<p>old</p>", .valid ⟨"Doc", 1, 1⟩, true, []⟩)]⟩
      5 0 "gone-ff99" "<p>new</p>").1 ⟨"gone-ff99", "G", "<p>z</p>", 0, 0⟩ (by decide)
  · exact (claim_C3 ⟨[("doc-ab12",
        .dir ⟨some "<p>old</p>", .valid ⟨"Doc", 1, 1⟩, true, []⟩)]⟩
      5 0 "gone-ff99" "<p>new</p>").2.1 (by decide) (by decide) (by decide)
  · exact (claim_C3 ⟨[("doc-ab12",
        .dir ⟨some "<p>old</p>", .valid ⟨"Doc", 1, 1⟩, true, []⟩)]⟩
      5 0 "doc-ab12" "<p>new</p>").2.2.1
      ⟨"doc-ab12", "Doc", "<p>new</p>", 1, 5⟩
      ⟨[("doc-ab12", .dir ⟨some "<p>new</p>", .valid ⟨"Doc", 1, 5⟩, true, []⟩)]⟩
      (by rfl)
  · obtain ⟨doc3, fs3, h1, h2, h3⟩ := (claim_C3 ⟨[("doc-ab12",
        .dir ⟨some "<p>old</p>", .valid ⟨"Doc", 1, 1⟩, true, []⟩)]⟩
      5 9 "doc-ab12" "<p>new</p>").2.2.2
      ⟨"doc-ab12", "Doc", "<p>new</p>", 1, 5⟩
      ⟨[("doc-ab12", .dir ⟨some "<p>new</p>", .valid ⟨"Doc", 1, 5⟩, true, []⟩)]⟩
      (by rfl) (by omega)
    exact ⟨doc3, fs3, h1, h2, h3⟩

/-! ## Claim C9 -/

theorem findEntry_removeEntry (l : List (String × RootEntry)) (id : String) :
    findEntry (removeEntry l id) id = none := by
  induction l with
  | nil => rfl
  | cons kv rest ih =>
    obtain ⟨k, w⟩ := kv
    by_cases hk : k = id
    · simp [removeEntry, hk, ih]
    · simp [removeEntry, hk, findEntry, ih]

theorem listEntrySummary_id {k : String} {e : RootEntry} {info : DocumentInfo}
    (h : listEntrySummary (k, e) = some info) : info.id = k := by
  cases e with
  | file c => exact Option.noConfusion h
  | dir d =>
    cases hh : d.html with
    | none => simp [listEntrySummary, hh] at h
    | some c =>
      cases hm : d.meta with
      | absent => simp [listEntrySummary, hh, hm] at h
      | corrupt => simp [listEntrySummary, hh, hm] at h
      | valid m =>
        simp only [listEntrySummary, hh, hm] at h
        cases h
        rfl

theorem mem_removeEntry_ne {l : List (String × RootEntry)} {id k : String} {e : RootEntry}
    (hmem : (k, e) ∈ removeEntry l id) : k ≠ id := by
  induction l with
  | nil => cases hmem
  | cons kv rest ih =>
    obtain ⟨k', w'⟩ := kv
    by_cases hk' : k' = id
    · rw [removeEntry, if_pos hk'] at hmem
      exact ih hmem
    · rw [removeEntry, if_neg hk'] at hmem
      rcases List.mem_cons.mp hmem with heq | hmem2
      · exact fun hkid => hk' (((congrArg Prod.fst heq).symm).trans hkid)
      · exact ih hmem2

theorem listDocuments_removeEntry (l : List (String × RootEntry)) (id : String) :
    ∀ info ∈ (removeEntry l id).filterMap listEntrySummary, info.id ≠ id := by
  intro info hinfo
  obtain ⟨⟨k, e⟩, hmem, hsum⟩ := List.mem_filterMap.mp hinfo
  rw [listEntrySummary_id hsum]
  exact mem_removeEntry_ne hmem

/-- Claim C9: `delete(id)` fails with a not-found error when the document's
HTML body does not exist; after a successful delete, `DocumentExists` and
`GetDocument` report the document as not found and `ListDocuments` no longer
includes it. -/
theorem claim_C9 (fs : FS) (documentID : String) :
    (Storage.DocumentExists fs documentID = false →
      Storage.DeleteDocument fs documentID = .error .notFound) ∧
    (∀ fs2, Storage.DeleteDocument fs documentID = .ok fs2 →
      Storage.DocumentExists fs2 documentID = false ∧
      Storage.GetDocument fs2 documentID = .error .notFound ∧
      ∀ info ∈ Storage.ListDocuments fs2, info.id ≠ documentID) := by
  constructor
  · intro h
    unfold Storage.DeleteDocument
    rw [if_pos h]
  · intro fs2 h
    unfold Storage.DeleteDocument at h
    by_cases hex : Storage.DocumentExists fs documentID = false
    · rw [if_pos hex] at h
      exact Except.noConfusion h
    · rw [if_neg hex] at h
      injection h with h2
      subst h2
      refine ⟨?_, ?_, ?_⟩
      · simp [Storage.DocumentExists, findEntry_removeEntry]
      · simp [Storage.GetDocument, findEntry_removeEntry]
      · exact listDocuments_removeEntry fs.entries documentID

/-- Witness for C9: deleting a missing document fails with not-found, and
after deleting the only document the store reports it gone. -/
theorem claim_C9_witness :
    Storage.DeleteDocument
      ⟨[("doc-ab12", .dir ⟨some "<p>x</p>", .valid ⟨"Doc", 1, 1⟩, true, []⟩)]⟩
      "gone-ff99" = .error .notFound ∧
    (Storage.DocumentExists (⟨[]⟩ : FS) "doc-ab12" = false ∧
     Storage.GetDocument (⟨[]⟩ : FS) "doc-ab12" = .error .notFound ∧
     ∀ info ∈ Storage.ListDocuments (⟨[]⟩ : FS), info.id ≠ "doc-ab12") := by
  constructor
  · exact (claim_C9 ⟨[("doc-ab12",
      .dir ⟨some "<p>x</p>", .valid ⟨"Doc", 1, 1⟩, true, []⟩)]⟩ "gone-ff99").1 (by decide)
  · exact (claim_C9 ⟨[("doc-ab12",
      .dir ⟨some "<p>x</p>", .valid ⟨"Doc", 1, 1⟩, true, []⟩)]⟩ "doc-ab12").2 ⟨[]⟩ (by rfl)

/-! ## Claim C6 -/

theorem setMedia_lookup_self (l : List (String × String)) (k v : String) :
    (setMedia l k v).lookup k = some v := by
  induction l with
  | nil => simp [setMedia, List.lookup]
  | cons kv rest ih =>
    obtain ⟨k', v'⟩ := kv
    by_cases hk : k' = k
    · simp [setMedia, hk, List.lookup]
    · have hbeq : (k == k') = false := beq_eq_false_iff_ne.mpr (Ne.symm hk)
      simp [setMedia, hk, List.lookup, hbeq, ih]

theorem goBase_no_slash (p : String) (h : ∃ c ∈ p.data, c ≠ '/') :
    '/' ∉ (goBase p).data := by
  obtain ⟨c0, hc0, hc0ne⟩ := h
  have hpne : p.data ≠ [] := by
    intro hnil
    rw [hnil] at hc0
    cases hc0
  unfold goBase
  rw [if_neg hpne]
  have hstr : p.data.reverse.dropWhile (· = '/') ≠ [] := by
    intro hnil
    have hall := List.dropWhile_eq_nil_iff.mp hnil
    have := hall c0 (List.mem_reverse.mpr hc0)
    simp at this
    exact hc0ne this
  rw [if_neg hstr]
  intro hmem
  have hmem2 : '/' ∈ (p.data.reverse.dropWhile (· = '/')).takeWhile (· ≠ '/') := by
    simpa using List.mem_reverse.mp hmem
  have := List.mem_takeWhile_imp hmem2
  simp at this

/-- Claim C6: `copyMediaFile` requires the document to exist (not-found
otherwise); on success it returns `media/<basename>` where the destination
filename is the basename of `sourcePath` (never the full caller-supplied
path: it contains no path separator as long as the source path has any
non-separator character), the only state change is in that document's media
map, and an existing media file with the same name is silently replaced by
the source content. -/
theorem claim_C6 (fs : FS) (extFiles : List (String × String))
    (documentID sourcePath : String) :
    (Storage.DocumentExists fs documentID = false →
      Storage.CopyMediaFile fs extFiles documentID sourcePath = .error .notFound) ∧
    ((∃ c ∈ sourcePath.data, c ≠ '/') → '/' ∉ (goBase sourcePath).data) ∧
    (∀ relPath fs2,
      Storage.CopyMediaFile fs extFiles documentID sourcePath = .ok (relPath, fs2) →
      relPath = "media/" ++ goBase sourcePath ∧
      ∃ d content, findEntry fs.entries documentID = some (.dir d) ∧
        extFiles.lookup sourcePath = some content ∧
        fs2 = ⟨setEntry fs.entries documentID (.dir { d with
          media := setMedia d.media (goBase sourcePath) content })⟩ ∧
        (setMedia d.media (goBase sourcePath) content).lookup (goBase sourcePath) =
          some content) := by
  refine ⟨?_, ?_, ?_⟩
  · intro h
    unfold Storage.CopyMediaFile
    rw [if_pos h]
  · exact goBase_no_slash sourcePath
  · intro relPath fs2 h
    unfold Storage.CopyMediaFile at h
    by_cases hex : Storage.DocumentExists fs documentID = false
    · rw [if_pos hex] at h
      exact Except.noConfusion h
    rw [if_neg hex] at h
    cases hl : extFiles.lookup sourcePath with
    | none =>
      simp only [hl] at h
      exact Except.noConfusion h
    | some content =>
      simp only [hl] at h
      cases hf : findEntry fs.entries documentID with
      | none =>
        simp only [hf] at h
        exact Except.noConfusion h
      | some e =>
        cases e with
        | file c =>
          simp only [hf] at h
          exact Except.noConfusion h
        | dir d =>
          simp only [hf] at h
          by_cases hm : d.hasMediaDir = true
          · rw [if_pos hm] at h
            injection h with h2
            injection h2 with ha hb
            subst ha
            subst hb
            exact ⟨rfl, d, content, rfl, rfl, rfl, setMedia_lookup_self _ _ _⟩
          · rw [if_neg hm] at h
            exact Except.noConfusion h

/-- Witness for C6: copying `/tmp/pic.png` into an existing document stores
it under `media/pic.png` with the source content. -/
theorem claim_C6_witness :
    "media/" ++ goBase "/tmp/pic.png" = "media/pic.png" ∧
    '/' ∉ (goBase "/tmp/pic.png").data ∧
    ∃ relPath fs2,
      Storage.CopyMediaFile
        ⟨[("doc-ab12", .dir ⟨some "<p>x</p>", .valid ⟨"Doc", 1, 1⟩, true, []⟩)]⟩
        [("/tmp/pic.png", "PNGDATA")] "doc-ab12" "/tmp/pic.png" = .ok (relPath, fs2) ∧
      relPath = "media/" ++ goBase "/tmp/pic.png" := by
  refine ⟨by decide, ?_, "media/pic.png",
    ⟨[("doc-ab12", .dir ⟨some "<p>x</p>", .valid ⟨"Doc", 1, 1⟩, true,
        [("pic.png", "PNGDATA")]⟩)]⟩, by rfl, ?_⟩
  · exact (claim_C6 ⟨[("doc-ab12",
        .dir ⟨some "<p>x</p>", .valid ⟨"Doc", 1, 1⟩, true, []⟩)]⟩
      [("/tmp/pic.png", "PNGDATA")] "doc-ab12" "/tmp/pic.png").2.1 ⟨'t', by decide, by decide⟩
  · exact ((claim_C6 ⟨[("doc-ab12",
        .dir ⟨some "<p>x</p>", .valid ⟨"Doc", 1, 1⟩, true, []⟩)]⟩
      [("/tmp/pic.png", "PNGDATA")] "doc-ab12" "/tmp/pic.png").2.2 "media/pic.png"
      ⟨[("doc-ab12", .dir ⟨some "<p>x</p>", .valid ⟨"Doc", 1, 1⟩, true,
          [("pic.png", "PNGDATA")]⟩)]⟩ (by rfl)).1

/-! ## Claim C10 -/

/-- Claim C10: `AddMedia` behaves identically for `mediaType = "image"` and
`mediaType = "video"`: the media-type argument only gates validation against
the closed set and has no influence on the copy, the stored state or the
returned path. -/
theorem claim_C10 (fs : FS) (extFiles : List (String × String))
    (documentID sourcePath : String) :
    Service.AddMedia fs extFiles documentID sourcePath "image" =
      Service.AddMedia fs extFiles documentID sourcePath "video" := by
  simp [Service.AddMedia]

/-! ## Claim C8 -/

theorem listEntrySummary_some {k : String} {e : RootEntry} {info : DocumentInfo} :
    listEntrySummary (k, e) = some info ↔
    ∃ d m, e = .dir d ∧ d.html.isSome = true ∧ d.meta = .valid m ∧
      info = ⟨k, m.name, m.createdAt, m.updatedAt, k ++ "/index.html"⟩ := by
  constructor
  · intro h
    cases e with
    | file c => exact Option.noConfusion h
    | dir d =>
      cases hh : d.html with
      | none => simp [listEntrySummary, hh] at h
      | some c =>
        cases hm : d.meta with
        | absent => simp [listEntrySummary, hh, hm] at h
        | corrupt => simp [listEntrySummary, hh, hm] at h
        | valid m =>
          simp only [listEntrySummary, hh, hm] at h
          cases h
          exact ⟨d, m, rfl, by rw [hh]; rfl, hm, rfl⟩
  · rintro ⟨d, m, rfl, hh, hm, rfl⟩
    cases hs : d.html with
    | none =>
      rw [hs] at hh
      cases hh
    | some c => simp [listEntrySummary, hs, hm]

theorem setEntry_of_not_found {l : List (String × RootEntry)} {id : String}
    (h : findEntry l id = none) (v : RootEntry) : setEntry l id v = l ++ [(id, v)] := by
  induction l with
  | nil => rfl
  | cons kv rest ih =>
    obtain ⟨k, w⟩ := kv
    by_cases hk : k = id
    · simp only [findEntry, if_pos hk] at h
      exact Option.noConfusion h
    · simp only [findEntry, if_neg hk] at h
      rw [setEntry, if_neg hk, ih h]
      rfl

/-- Claim C8 (amended form): `list()` returns a summary exactly for root
entries that are directories whose `index.html` is present and whose metadata
parses; an entry failing either check is silently skipped without affecting
the rest of the listing; every summary's file path has the form
`<id>/index.html`; and a successful create whose generated ID is not already
a root entry adds exactly one summary. -/
theorem claim_C8 (fs : FS) :
    (∀ info, info ∈ Storage.ListDocuments fs ↔
      ∃ d m, (info.id, RootEntry.dir d) ∈ fs.entries ∧ d.html.isSome = true ∧
        d.meta = .valid m ∧
        info = ⟨info.id, m.name, m.createdAt, m.updatedAt, info.id ++ "/index.html"⟩) ∧
    (∀ info ∈ Storage.ListDocuments fs, info.filePath = info.id ++ "/index.html") ∧
    (∀ k d, (d.html = none ∨ d.meta = .absent ∨ d.meta = .corrupt) →
      Storage.ListDocuments ⟨(k, .dir d) :: fs.entries⟩ = Storage.ListDocuments fs) ∧
    (∀ draws now name htmlContent doc fs2,
      Service.CreateDocument fs draws now name htmlContent = .ok (doc, fs2) →
      findEntry fs.entries doc.id = none →
      (Storage.ListDocuments fs2).length = (Storage.ListDocuments fs).length + 1) := by
  refine ⟨?_, ?_, ?_, ?_⟩
  · intro info
    constructor
    · intro hmem
      obtain ⟨⟨k, e⟩, hk, hsum⟩ := List.mem_filterMap.mp hmem
      obtain ⟨d, m, rfl, hh, hm, hinfo⟩ := listEntrySummary_some.mp hsum
      have hid : info.id = k := by rw [hinfo]
      subst hid
      exact ⟨d, m, hk, hh, hm, hinfo⟩
    · rintro ⟨d, m, hmem, hh, hm, hinfo⟩
      exact List.mem_filterMap.mpr ⟨(info.id, .dir d), hmem,
        listEntrySummary_some.mpr ⟨d, m, rfl, hh, hm, hinfo⟩⟩
  · intro info hmem
    obtain ⟨⟨k, e⟩, _, hsum⟩ := List.mem_filterMap.mp hmem
    obtain ⟨d, m, rfl, _, _, hinfo⟩ := listEntrySummary_some.mp hsum
    rw [hinfo]
  · intro k d hbad
    show List.filterMap listEntrySummary ((k, .dir d) :: fs.entries) =
      List.filterMap listEntrySummary fs.entries
    rw [List.filterMap_cons]
    rcases hbad with hb | hb | hb <;> simp [listEntrySummary, hb]
  · intro draws now name htmlContent doc fs2 h hnone
    obtain ⟨hdoc, hcreate⟩ := serviceCreate_ok h
    unfold Storage.CreateDocument at hcreate
    simp only [hnone] at hcreate
    injection hcreate with h2
    subst h2
    show (List.filterMap listEntrySummary (setEntry fs.entries doc.id
        (.dir { html := some doc.htmlContent,
                meta := .valid ⟨doc.name, doc.createdAt, doc.updatedAt⟩,
                hasMediaDir := true, media := [] }))).length =
      (List.filterMap listEntrySummary fs.entries).length + 1
    rw [setEntry_of_not_found hnone, List.filterMap_append]
    simp [listEntrySummary]

/-- Counterexample to C8's count property as stated: three successful creates
from an empty root can produce only two documents, because the 100-attempt
collision fallback regenerates an ID that already exists (without re-checking
existence) and the create then overwrites that document. -/
theorem claim_C8_counterexample :
    ((Service.CreateDocument ⟨[]⟩ (fun _ => some [0xab, 0xcd, 0x01]) 1 "a" "<p>1</p>").toOption.bind
      (fun r1 =>
        (Service.CreateDocument r1.2 (fun _ => some [0xab, 0xcd, 0x01]) 2 "a" "<p>2</p>").toOption.bind
          (fun r2 =>
            (Service.CreateDocument r2.2 (fun _ => some [0xab, 0xcd, 0x01]) 3 "a" "<p>3</p>").toOption.map
              (fun r3 => (Storage.ListDocuments r3.2).length)))) = some 2 := by
  decide

/-- Witness for the amended C8 at concrete inputs: a summary's file-path form,
a corrupt-metadata directory being skipped, and a fresh create adding exactly
one summary. -/
theorem claim_C8_witness :
    (∀ info ∈ Storage.ListDocuments
        ⟨[("doc-ab12", .dir ⟨some "<p>x</p>", .valid ⟨"Doc", 1, 2⟩, true, []⟩)]⟩,
      info.filePath = info.id ++ "/index.html") ∧
    Storage.ListDocuments
      ⟨("bad-meta", .dir ⟨some "<p>y</p>", .corrupt, true, []⟩) ::
        [("doc-ab12", .dir ⟨some "<p>x</p>", .valid ⟨"Doc", 1, 2⟩, true, []⟩)]⟩ =
      Storage.ListDocuments
        ⟨[("doc-ab12", .dir ⟨some "<p>x</p>", .valid ⟨"Doc", 1, 2⟩, true, []⟩)]⟩ ∧
    (Storage.ListDocuments
      ⟨[("doc-ab12", .dir ⟨some "<p>x</p>", .valid ⟨"Doc", 1, 2⟩, true, []⟩),
        ("b-abcd", .dir ⟨some "<p>z</p>", .valid ⟨"b", 4, 4⟩, true, []⟩)]⟩).length =
    (Storage.ListDocuments
      ⟨[("doc-ab12", .dir ⟨some "<p>x</p>", .valid ⟨"Doc", 1, 2⟩, true, []⟩)]⟩).length + 1 := by
  refine ⟨?_, ?_, ?_⟩
  · exact (claim_C8 ⟨[("doc-ab12",
      .dir ⟨some "<p>x</p>", .valid ⟨"Doc", 1, 2⟩, true, []⟩)]⟩).2.1
  · exact (claim_C8 ⟨[("doc-ab12",
      .dir ⟨some "<p>x</p>", .valid ⟨"Doc", 1, 2⟩, true, []⟩)]⟩).2.2.1
      "bad-meta" ⟨some "<p>y</p>", .corrupt, true, []⟩ (.inr (.inr rfl))
  · exact (claim_C8 ⟨[("doc-ab12",
      .dir ⟨some "<p>x</p>", .valid ⟨"Doc", 1, 2⟩, true, []⟩)]⟩).2.2.2
      (fun _ => some [0xab, 0xcd, 0x01]) 4 "b" "<p>z</p>"
      ⟨"b-abcd", "b", "<p>z</p>", 4, 4⟩
      ⟨[("doc-ab12", .dir ⟨some "<p>x</p>", .valid ⟨"Doc", 1, 2⟩, true, []⟩),
        ("b-abcd", .dir ⟨some "<p>z</p>", .valid ⟨"b", 4, 4⟩, true, []⟩)]⟩
      (by rfl) (by decide)

/-! ## Export pipeline (Exporter, part_002) -/

/-- Observable side effects of an export call, in order: filesystem reads
(`os.Stat`/`os.ReadFile` during the document fetch), filesystem writes
(`os.MkdirAll`, `os.WriteFile`, temp-file creation/removal), and
external-process launches (headless Chrome; the pandoc binary, including the
`pandoc --version` availability probe). -/
inductive Effect
  | fsRead
  | fsWrite
  | launchBrowser
  | runPandoc
deriving DecidableEq

/-- Environment of the export pipeline: whether the Chrome tier succeeds
end-to-end, and whether pandoc is invocable / converts successfully. -/
structure ExportEnv where
  chromeOk : Bool
  pandocAvailable : Bool
  pandocOk : Bool
deriving DecidableEq

/-- Go `Exporter.exportHTML`: write `htmlContent` verbatim to the output
path. -/
def exportHTML (outputPath : String) : Except DocError String × List Effect :=
  (.ok outputPath, [.fsWrite])

/-- Go `Exporter.exportPDFWithChrome`, with the render outcome taken from the
environment: write the temp HTML copy (with injected print styles), launch
the headless browser, on success render the PDF to the output path, and
remove the temp file on every exit path. -/
def exportPDFWithChrome (env : ExportEnv) (outputPath : String) :
    Except DocError String × List Effect :=
  if env.chromeOk then (.ok outputPath, [.fsWrite, .launchBrowser, .fsWrite, .fsWrite])
  else (.error .storage, [.fsWrite, .launchBrowser, .fsWrite])

/-- Go `Exporter.checkPandoc` followed by the converter invocation
(`exportPDFWithPandoc` / `exportDOCX` share this structure): probe
`pandoc --version`, fail with an availability error when not invocable;
otherwise write the temp HTML copy, run pandoc, and remove the temp file. -/
def exportWithPandoc (env : ExportEnv) (outputPath : String) :
    Except DocError String × List Effect :=
  if env.pandocAvailable = false then (.error .storage, [.runPandoc])
  else if env.pandocOk then (.ok outputPath, [.runPandoc, .fsWrite, .runPandoc, .fsWrite])
  else (.error .storage, [.runPandoc, .fsWrite, .runPandoc, .fsWrite])

/-- Go `Exporter.ExportDocument` (the part_002 variant with an explicit
output path): fetch the document through the service (I/O), resolve the
output path — creating parent directories when an explicit path is supplied —
and only then dispatch on the format; an unknown format is rejected at the
final `switch`. The second component is the trace of observable effects. -/
def ExportDocument (env : ExportEnv) (rootDir : String) (fs : FS)
    (documentID format outputPath : String) : Except DocError String × List Effect :=
  if ValidateDocumentID documentID = false then (.error .validation, [])
  else
    match Storage.GetDocument fs documentID with
    | .error e => (.error e, [.fsRead])
    | .ok _doc =>
        let mkdirTrace : List Effect := if outputPath = "" then [] else [.fsWrite]
        let outPath :=
          if outputPath = "" then
            rootDir ++ "/" ++ documentID ++ "/" ++ documentID ++ "." ++ format
          else outputPath
        if format = "html" then
          let r := exportHTML outPath
          (r.1, .fsRead :: mkdirTrace ++ r.2)
        else if format = "pdf" then
          match exportPDFWithChrome env outPath with
          | (.ok p, t) => (.ok p, .fsRead :: mkdirTrace ++ t)
          | (.error _, t) =>
              let r := exportWithPandoc env outPath
              (r.1, .fsRead :: mkdirTrace ++ t ++ r.2)
        else if format = "docx" then
          let r := exportWithPandoc env outPath
          (r.1, .fsRead :: mkdirTrace ++ r.2)
        else (.error .validation, .fsRead :: mkdirTrace)

/-! ## Claim C7 -/

/-- The root state for the C7 counterexample: one well-formed document. -/
def fsC7 : FS :=
  ⟨[("doc-ab12", .dir ⟨some "<p>x</p>", .valid ⟨"Doc", 0, 0⟩, true, []⟩)]⟩

/-- Counterexample to C7 as stated: exporting an existing document to the
unsupported format `"xml"` does fail with a validation error and launches no
renderer process, but the rejection happens only after the document has been
read — the effect trace already contains a filesystem read, so the rejection
is not "before any I/O". -/
theorem claim_C7_counterexample :
    ExportDocument ⟨true, true, true⟩ "root" fsC7 "doc-ab12" "xml" "" =
      (.error .validation, [.fsRead]) ∧
    ([Effect.fsRead] : List Effect) ≠ [] := by
  exact ⟨rfl, by decide⟩

/-- Claim C7, amended: for every format outside `{html, pdf, docx}`,
`ExportDocument` fails without launching any external renderer process (no
browser launch, no pandoc invocation appears in the trace); when the document
fetch succeeds the failure is a validation error — but the rejection happens
after the document has been fetched (and after creating the output parent
directory when an explicit output path is supplied), not before all I/O. -/
theorem exportDocument_bad_format (env : ExportEnv) (rootDir : String) (fs : FS)
    (documentID format outputPath : String)
    (h1 : format ≠ "html") (h2 : format ≠ "pdf") (h3 : format ≠ "docx") :
    ExportDocument env rootDir fs documentID format outputPath =
      if ValidateDocumentID documentID = false then (.error .validation, [])
      else
        match Storage.GetDocument fs documentID with
        | .error e => (.error e, [.fsRead])
        | .ok _ => (.error .validation,
            .fsRead :: (if outputPath = "" then ([] : List Effect) else [.fsWrite])) := by
  unfold ExportDocument
  by_cases hv : ValidateDocumentID documentID = false
  · rw [if_pos hv, if_pos hv]
  · rw [if_neg hv, if_neg hv]
    cases hg : Storage.GetDocument fs documentID with
    | error e => rfl
    | ok doc0 =>
      simp only [if_neg h1, if_neg h2, if_neg h3]

theorem claim_C7_amended (env : ExportEnv) (rootDir : String) (fs : FS)
    (documentID format outputPath : String)
    (hfmt : format ≠ "html" ∧ format ≠ "pdf" ∧ format ≠ "docx") :
    (∃ e, (ExportDocument env rootDir fs documentID format outputPath).1 = .error e) ∧
    Effect.launchBrowser ∉ (ExportDocument env rootDir fs documentID format outputPath).2 ∧
    Effect.runPandoc ∉ (ExportDocument env rootDir fs documentID format outputPath).2 ∧
    (∀ doc, Storage.GetDocument fs documentID = .ok doc →
      (ExportDocument env rootDir fs documentID format outputPath).1 =
        .error .validation) := by
  obtain ⟨h1, h2, h3⟩ := hfmt
  have hsh := exportDocument_bad_format env rootDir fs documentID format outputPath h1 h2 h3
  rw [hsh]
  by_cases hv : ValidateDocumentID documentID = false
  · rw [if_pos hv]
    exact ⟨⟨.validation, rfl⟩, by simp, by simp, fun doc _ => rfl⟩
  · rw [if_neg hv]
    cases hg : Storage.GetDocument fs documentID with
    | error e =>
      refine ⟨⟨e, rfl⟩, by simp, by simp, ?_⟩
      intro doc hdoc
      exact Except.noConfusion hdoc
    | ok doc0 =>
      refine ⟨⟨.validation, rfl⟩, ?_, ?_, fun doc _ => rfl⟩
      · by_cases ho : outputPath = "" <;> simp [ho]
      · by_cases ho : outputPath = "" <;> simp [ho]

/-- Witness for the amended C7 at a concrete input: format `"xml"` on an
existing document is rejected with a validation error and the trace contains
no renderer launch. -/
theorem claim_C7_amended_witness :
    (∃ e, (ExportDocument ⟨true, true, true⟩ "root" fsC7 "doc-ab12" "xml" "out/f.xml").1 =
      .error e) ∧
    Effect.launchBrowser ∉
      (ExportDocument ⟨true, true, true⟩ "root" fsC7 "doc-ab12" "xml" "out/f.xml").2 ∧
    Effect.runPandoc ∉
      (ExportDocument ⟨true, true, true⟩ "root" fsC7 "doc-ab12" "xml" "out/f.xml").2 ∧
    (ExportDocument ⟨true, true, true⟩ "root" fsC7 "doc-ab12" "xml" "out/f.xml").1 =
      .error .validation := by
  obtain ⟨ha, hb, hc, hd⟩ := claim_C7_amended ⟨true, true, true⟩ "root" fsC7
    "doc-ab12" "xml" "out/f.xml" ⟨by decide, by decide, by decide⟩
  exact ⟨ha, hb, hc, hd ⟨"doc-ab12", "Doc", "<p>x</p>", 0, 0⟩ (by rfl)⟩

end DocGen
